import Mathlib

/-!
Verification of the Lasker Morris referee engine
(src/game/implementation/lasker_morris/lasker_morris.py and
src/game/abstract/player.py), as a shallow embedding in Lean 4.

Positions are the literal strings of the Python code; the board is the
mapping from position label to occupant; hands are exact integers, as in
Python.  Each definition mirrors one Python function of the referee, with
the same checks in the same order.
-/

namespace LaskerMorris

/-- The two player colors of the game. -/
inductive Color where
  | blue
  | orange
deriving DecidableEq, Repr

/-- The color of the other player. -/
def Color.other : Color → Color
  | .blue => .orange
  | .orange => .blue

instance : BEq Color := ⟨fun a b => decide (a = b)⟩

instance : LawfulBEq Color where
  eq_of_beq h := by simpa [BEq.beq] using h
  rfl := by simp [BEq.beq]

/-- Game state: the board mapping, the two hand counts and whose turn it
is.  Mirrors the mutable fields board, player_hands and _current_player
of the LaskerMorris class. -/
structure GameState where
  board : String → Option Color
  blueHand : Int
  orangeHand : Int
  current : Color

/-- Hand count of a color (player_hands lookup). -/
def hand (s : GameState) : Color → Int
  | .blue => s.blueHand
  | .orange => s.orangeHand

/-- Decrement the hand of a color by one (player_hands[color] -= 1). -/
def decHand (s : GameState) : Color → GameState
  | .blue => { s with blueHand := s.blueHand - 1 }
  | .orange => { s with orangeHand := s.orangeHand - 1 }

/-- Write one board cell (board[p] = v). -/
def setBoard (s : GameState) (p : String) (v : Option Color) : GameState :=
  { s with board := fun q => if q = p then v else s.board q }

/-- The 25 position labels excluded from play (invalid_fields). -/
def invalidFields : List String :=
  ["a2", "a3", "a5", "a6", "b1", "b3", "b5", "b7", "c1", "c2", "c6", "c7",
   "d4", "e1", "e2", "e6", "e7", "f1", "f3", "f5", "f7", "g2", "g3", "g5",
   "g6"]

/-- Label of the cell in column c, row n. -/
def posName (c : Char) (n : Nat) : String :=
  String.mk [c] ++ toString n

/-- The 49 keys of the board dictionary, as built by initialize_game:
rows 1..7, columns a..g. -/
def boardKeys : List String :=
  (List.range 7).flatMap
    (fun n => "abcdefg".toList.map (fun c => posName c (n + 1)))

/-- Initial game state: every cell empty, 10 stones in each hand, blue to
move first. -/
def initState : GameState :=
  { board := fun _ => none, blueHand := 10, orangeHand := 10,
    current := Color.blue }

/-- The 16 fixed mill triples of _is_mill. -/
def mills : List (List String) :=
  [["a1", "a4", "a7"], ["b2", "b4", "b6"], ["c3", "c4", "c5"],
   ["d1", "d2", "d3"], ["d5", "d6", "d7"], ["e3", "e4", "e5"],
   ["f2", "f4", "f6"], ["g1", "g4", "g7"],
   ["a1", "d1", "g1"], ["b2", "d2", "f2"], ["c3", "d3", "e3"],
   ["a4", "b4", "c4"], ["e4", "f4", "g4"], ["c5", "d5", "e5"],
   ["b6", "d6", "f6"], ["a7", "d7", "g7"]]

/-- Stones the mover would have in one mill triple after the move: the
counting loop of _is_mill.  The target cell always counts; any other cell
counts when it is not the vacated source and already holds the mover
color. -/
def millStones (s : GameState) (source target : String)
    (mill : List String) : Nat :=
  mill.foldl
    (fun acc pos =>
      if pos = target then acc + 1
      else if pos ≠ source ∧ s.board pos = some s.current then acc + 1
      else acc)
    0

/-- _is_mill: does placing the current color on target (vacating source
when it is a board cell) complete some mill through target? -/
def isMill (s : GameState) (source target : String) : Bool :=
  mills.any (fun mill =>
    mill.contains target && (millStones s source target mill == 3))

/-- The hard coded adjacency table of _check_corret_step. -/
def neighbors : List (String × List String) :=
  [("a1", ["a4", "d1", "a4"]),
   ("a4", ["a1", "a7", "b4"]),
   ("a7", ["a4", "d7"]),
   ("b2", ["b4", "d2"]),
   ("b4", ["b2", "b6", "a4", "c4"]),
   ("b6", ["b4", "d6"]),
   ("c3", ["c4", "d3"]),
   ("c4", ["c3", "c5", "b4"]),
   ("c5", ["c4", "d5"]),
   ("d1", ["a1", "d2", "g1"]),
   ("d2", ["b2", "d1", "d3", "f2"]),
   ("d3", ["c3", "d2", "e3"]),
   ("d5", ["c5", "d6", "e5"]),
   ("d6", ["b6", "d5", "d7", "f6"]),
   ("d7", ["a7", "d6", "g7"]),
   ("e3", ["d3", "e4"]),
   ("e4", ["e3", "e5", "f4"]),
   ("e5", ["d5", "e4"]),
   ("f2", ["d2", "f4"]),
   ("f4", ["e4", "f2", "f6", "g4"]),
   ("f6", ["d6", "f4"]),
   ("g1", ["d1", "g4"]),
   ("g4", ["f4", "g1", "g7"]),
   ("g7", ["d7", "g4"])]

/-- _check_corret_step: both cells must be table keys, and target must be
listed among the neighbors of source. -/
def checkCorretStep (source target : String) : Bool :=
  match neighbors.lookup source, neighbors.lookup target with
  | some ns, some _ => ns.contains target
  | _, _ => false

/-- _count_player_pieces: stones of a color on the board plus the stones
still in that hand. -/
def countPlayerPieces (s : GameState) (color : Color) : Int :=
  ((boardKeys.countP (fun p => s.board p == some color) : Int))
    + hand s color

/-- The removal block of _is_valid_move (its last two branches). -/
def removeCheck (s : GameState) (source target remove : String) : Bool :=
  if remove ≠ "r0" then
    if invalidFields.contains remove ∨ ¬ boardKeys.contains remove then
      false
    else if s.board remove = none then false
    else if s.board remove = some s.current then false
    else if ¬ isMill s source target then false
    else true
  else if isMill s source target then false
  else true

/-- _is_valid_move: target checks, then source checks (board move or hand
placement), then the removal block, in source order with short circuit. -/
def isValidMove (s : GameState) (source target remove : String) : Bool :=
  if invalidFields.contains target ∨ ¬ boardKeys.contains target then
    false
  else if (s.board target).isSome then false
  else if source ≠ "h" then
    if invalidFields.contains source ∨ ¬ boardKeys.contains source then
      false
    else if ¬ (s.board source = some s.current) then false
    else if 3 < countPlayerPieces s s.current
        ∧ ¬ checkCorretStep source target then false
    else removeCheck s source target remove
  else if hand s s.current ≤ 0 then false
  else removeCheck s source target remove

/-- _execute_move: take the stone from hand or from the source cell, put
it on the target cell, and clear the removed cell if any. -/
def executeMove (s : GameState) (source target remove : String) :
    GameState :=
  let s1 := if source = "h" then decHand s s.current
            else setBoard s source none
  let s2 := setBoard s1 target (some s.current)
  if remove ≠ "r0" then setBoard s2 remove none else s2

/-- Split a character list at whitespace runs, discarding empty pieces;
acc holds the characters of the token being read, in reverse. -/
def tokenizeAux : List Char → List Char → List String
  | [], acc => if acc.isEmpty then [] else [String.mk acc.reverse]
  | c :: cs, acc =>
    if c.isWhitespace then
      if acc.isEmpty then tokenizeAux cs []
      else String.mk acc.reverse :: tokenizeAux cs []
    else tokenizeAux cs (c :: acc)

/-- Whitespace tokenization of a move line (move.strip().split()):
maximal whitespace runs separate the tokens, leading and trailing
whitespace is dropped. -/
def tokenize (move : String) : List String :=
  tokenizeAux move.toList []

/-- make_move: parse the line into three tokens, validate, and execute
only when valid; on any rejection the state is returned unchanged. -/
def makeMove (s : GameState) (move : String) : Bool × GameState :=
  match tokenize move with
  | [source, target, remove] =>
    if isValidMove s source target remove then
      (true, executeMove s source target remove)
    else (false, s)
  | _ => (false, s)

/-- switch_player. -/
def switchPlayer (s : GameState) : GameState :=
  { s with current := s.current.other }

/-- One accepted turn of run_game as a state transformer: apply the move
and hand the turn to the other player; none when the move is rejected. -/
def step (s : GameState) (move : String) : Option GameState :=
  match makeMove s move with
  | (true, s') => some (switchPlayer s')
  | (false, _) => none

/-- The state reached by a sequence of accepted moves. -/
def reach (s : GameState) : List String → Option GameState
  | [] => some s
  | m :: ms =>
    match step s m with
    | some s' => reach s' ms
    | none => none

/-- determine_winner: the first player in the iteration order whose total
piece count is below 3 loses, the opponent is returned as winner; none
when both totals are at least 3.  p1 is the color of _player1. -/
def determineWinner (s : GameState) (p1 : Color) : Option Color :=
  if countPlayerPieces s p1 < 3 then some p1.other
  else if countPlayerPieces s p1.other < 3 then some p1
  else none

end LaskerMorris

namespace LaskerMorris

/-- The 24 playable board positions: board keys minus invalid fields. -/
def validPositions : List String :=
  boardKeys.filter (fun p => ¬ invalidFields.contains p)

/-- Symmetry of the adjacency table, as checked through
_check_corret_step: over all pairs of playable positions, target is
listed for source exactly when source is listed for target. -/
def adjacencyTableSymmetric : Bool :=
  validPositions.all (fun p =>
    validPositions.all (fun q =>
      checkCorretStep p q == checkCorretStep q p))

/-- Well formedness of the adjacency table: every key and every listed
neighbor is a playable position. -/
def adjacencyTableWellFormed : Bool :=
  neighbors.all (fun e =>
    validPositions.contains e.1
      && e.2.all (fun q => validPositions.contains q))

/-- Claim C10: the hard coded adjacency table of _check_corret_step is
symmetric (q is listed as a neighbor of p iff p is listed as a neighbor
of q, over all pairs of the 24 playable positions) and well formed
(every key and every listed neighbor is one of the 24 playable
positions). -/
theorem c10_adjacency_table :
    validPositions.length = 24 ∧
    adjacencyTableSymmetric = true ∧
    adjacencyTableWellFormed = true :=
  ⟨by decide, by decide, by decide⟩

/-- Claim C8: on any rejected move (any reason, malformed input
included) make_move returns the state unchanged: board and hands after
the call are exactly the values before it.  The validator itself is the
pure function isValidMove and appears in the state transformer only as a
test, so it mutates nothing on acceptance or rejection. -/
theorem c8_reject_no_mutation (s : GameState) (mv : String)
    (h : (makeMove s mv).1 = false) : (makeMove s mv).2 = s := by
  rcases ht : tokenize mv with _ | ⟨a, _ | ⟨b, _ | ⟨c, _ | ⟨d, rest⟩⟩⟩⟩ <;>
    simp only [makeMove, ht] at h ⊢
  by_cases hv : isValidMove s a b c = true
  · rw [if_pos hv] at h
    simp at h
  · rw [if_neg hv]

/-- Witness for C8 at a concrete rejected move: the empty line is
rejected on the initial state and the state is returned unchanged. -/
theorem c8_reject_no_mutation_witness :
    (makeMove initState "").1 = false ∧
    (makeMove initState "").2 = initState :=
  ⟨by decide, c8_reject_no_mutation initState "" (by decide)⟩

/-- Claim C6: determine_winner declares the opponent the winner exactly
when a color has total piece count (board plus hand) below 3; when both
colors hold at least 3 total pieces no winner is declared. -/
theorem c6_winner_iff_low_count (s : GameState) (p1 : Color) :
    (3 ≤ countPlayerPieces s p1 → 3 ≤ countPlayerPieces s p1.other →
      determineWinner s p1 = none) ∧
    (∀ c : Color, countPlayerPieces s c < 3 →
      3 ≤ countPlayerPieces s c.other →
      determineWinner s p1 = some c.other) ∧
    ((determineWinner s p1).isSome ↔
      (countPlayerPieces s p1 < 3 ∨ countPlayerPieces s p1.other < 3)) := by
  refine ⟨?_, ?_, ?_⟩
  · intro h1 h2
    unfold determineWinner
    rw [if_neg (by omega), if_neg (by omega)]
  · intro c hc hco
    unfold determineWinner
    cases p1 <;> cases c <;> simp only [Color.other] at hc hco ⊢
    · rw [if_pos hc]
    · have h1 : ¬ countPlayerPieces s Color.blue < 3 := by omega
      rw [if_neg h1, if_pos hc]
    · have h1 : ¬ countPlayerPieces s Color.orange < 3 := by omega
      rw [if_neg h1, if_pos hc]
    · rw [if_pos hc]
  · unfold determineWinner
    by_cases h1 : countPlayerPieces s p1 < 3
    · simp [h1]
    · by_cases h2 : countPlayerPieces s p1.other < 3 <;> simp [h1, h2]

/-- Witness for C6 at a concrete state: orange holds 2 stones on the
board and none in hand, blue holds 10 in hand; the check declares blue
the winner, and with the full initial state it declares none. -/
theorem c6_winner_iff_low_count_witness :
    determineWinner
      { board := fun p =>
          if p = "d1" ∨ p = "d2" then some Color.orange else none,
        blueHand := 10, orangeHand := 0,
        current := Color.blue } Color.blue = some Color.blue ∧
    determineWinner initState Color.blue = none :=
  ⟨(c6_winner_iff_low_count _ Color.blue).2.1 Color.orange (by decide)
      (by decide),
   (c6_winner_iff_low_count initState Color.blue).1 (by decide) (by decide)⟩

end LaskerMorris
namespace LaskerMorris

/-- Count of stones a color has on the board alone, not counting the
hand: the quantity the specification text describes.  The source
function _count_player_pieces adds the hand count on top of this. -/
def onBoardCount (s : GameState) (color : Color) : Int :=
  (boardKeys.countP (fun p => s.board p == some color) : Int)

/-- Blue has exactly 3 stones on the board (a full d column) and one
stone left in hand; blue to move. -/
def flyingState : GameState :=
  { board := fun p =>
      if p = "d1" ∨ p = "d2" ∨ p = "d3" then some Color.blue else none,
    blueHand := 1, orangeHand := 10, current := Color.blue }

/-- Counterexample to C2 as stated: blue has exactly 3 stones on the
board, g7 is a free playable target, d1 is a blue source, yet the move
d1 to g7 is rejected, because the validator adds the hand stone to the
count (3 + 1 > 3) and then demands adjacency. -/
theorem c2_counterexample :
    onBoardCount flyingState Color.blue = 3 ∧
    flyingState.board "g7" = none ∧
    invalidFields.contains "g7" = false ∧
    boardKeys.contains "g7" = true ∧
    flyingState.board "d1" = some flyingState.current ∧
    checkCorretStep "d1" "g7" = false ∧
    isValidMove flyingState "d1" "g7" "r0" = false :=
  ⟨by decide, by decide, by decide, by decide, by decide, by decide,
   by decide⟩

/-- Under passing target checks, isValidMove reduces past them. -/
theorem isValidMove_target_pass (s : GameState) (source target remove : String)
    (ht1 : invalidFields.contains target = false)
    (ht2 : boardKeys.contains target = true)
    (ht3 : s.board target = none) :
    isValidMove s source target remove =
      (if source ≠ "h" then
        if invalidFields.contains source ∨ ¬ boardKeys.contains source then
          false
        else if ¬ (s.board source = some s.current) then false
        else if 3 < countPlayerPieces s s.current
            ∧ ¬ checkCorretStep source target then false
        else removeCheck s source target remove
      else if hand s s.current ≤ 0 then false
      else removeCheck s source target remove) := by
  unfold isValidMove
  rw [if_neg (by simp only [ht1, ht2]; simp), if_neg (by simp [ht3])]

/-- Claim C2 amended: for an on-board move whose target and source
checks pass, the validator requires adjacency exactly when the total
piece count of the mover, board stones plus hand stones, exceeds 3 (the
source counts the hand as well, so a mover with 3 board stones and a
nonempty hand may not fly); hand placements never consult adjacency. -/
theorem c2_adjacency_amended (s : GameState) (source target remove : String)
    (hs : source ≠ "h")
    (ht1 : invalidFields.contains target = false)
    (ht2 : boardKeys.contains target = true)
    (ht3 : s.board target = none)
    (hs1 : invalidFields.contains source = false)
    (hs2 : boardKeys.contains source = true)
    (hs3 : s.board source = some s.current) :
    (3 < countPlayerPieces s s.current → checkCorretStep source target = false →
      isValidMove s source target remove = false) ∧
    (countPlayerPieces s s.current ≤ 3 →
      isValidMove s source target remove = removeCheck s source target remove) ∧
    (checkCorretStep source target = true →
      isValidMove s source target remove = removeCheck s source target remove) ∧
    (∀ t2 r2, invalidFields.contains t2 = false → boardKeys.contains t2 = true →
      s.board t2 = none → 0 < hand s s.current →
      isValidMove s "h" t2 r2 = removeCheck s "h" t2 r2) := by
  refine ⟨?_, ?_, ?_, ?_⟩
  · intro hcnt hadj
    rw [isValidMove_target_pass s source target remove ht1 ht2 ht3,
      if_pos hs, if_neg (by simp only [hs1, hs2]; simp), if_neg (by simp [hs3]),
      if_pos ⟨hcnt, by simp [hadj]⟩]
  · intro hcnt
    rw [isValidMove_target_pass s source target remove ht1 ht2 ht3,
      if_pos hs, if_neg (by simp only [hs1, hs2]; simp), if_neg (by simp [hs3]),
      if_neg (by rw [not_and]; intro h1; omega)]
  · intro hadj
    rw [isValidMove_target_pass s source target remove ht1 ht2 ht3,
      if_pos hs, if_neg (by simp only [hs1, hs2]; simp), if_neg (by simp [hs3]),
      if_neg (by simp [hadj])]
  · intro t2 r2 h1 h2 h3 h4
    rw [isValidMove_target_pass s "h" t2 r2 h1 h2 h3,
      if_neg (by simp), if_neg (by omega)]

/-- Witness for the amended C2 at a concrete input: on flyingState the
total count is 4, so the non-adjacent move d1 to g7 is rejected. -/
theorem c2_adjacency_amended_witness :
    isValidMove flyingState "d1" "g7" "r0" = false :=
  (c2_adjacency_amended flyingState "d1" "g7" "r0" (by decide) (by decide)
    (by decide) (by decide) (by decide) (by decide) (by decide)).1
    (by decide) (by decide)

end LaskerMorris
namespace LaskerMorris

/-- A stone at p belongs to some completed mill of color c on board b:
the protection condition the specification attaches to capture targets. -/
def inCompletedMill (b : String → Option Color) (c : Color) (p : String) :
    Bool :=
  mills.any (fun mill =>
    mill.contains p && mill.all (fun q => b q == some c))

/-- Blue holds d1 and d2 and is about to close the d mill from hand;
orange holds a full mill a1, a4, a7 plus a mill free stone on b2. -/
def millProtectState : GameState :=
  { board := fun p =>
      if p = "d1" ∨ p = "d2" then some Color.blue
      else if p = "a1" ∨ p = "a4" ∨ p = "a7" ∨ p = "b2" then
        some Color.orange
      else none,
    blueHand := 8, orangeHand := 6, current := Color.blue }

/-- Counterexample to C1 as stated: a4 sits inside the completed orange
mill a1 a4 a7 while the orange stone on b2 is in no mill, so the claim
demands that a4 be refused as capture target; the validator accepts the
mill closing move h d3 a4 anyway, because the code never checks mill
membership of the removed stone. -/
theorem c1_counterexample :
    millProtectState.board "a4" = some Color.orange ∧
    inCompletedMill millProtectState.board Color.orange "a4" = true ∧
    millProtectState.board "b2" = some Color.orange ∧
    inCompletedMill millProtectState.board Color.orange "b2" = false ∧
    isMill millProtectState "h" "d3" = true ∧
    isValidMove millProtectState "h" "d3" "a4" = true :=
  ⟨by decide, by decide, by decide, by decide, by decide, by decide⟩

/-- Claim C1 amended: when the move completes a mill, the validator
accepts a removal target iff it names an existing board position holding
an opponent stone; whether that stone sits inside a completed opponent
mill is never consulted, so protected stones are capturable even while
mill free opponent stones exist. -/
theorem c1_removal_amended (s : GameState) (source target remove : String)
    (hr : remove ≠ "r0") :
    removeCheck s source target remove = true ↔
      (invalidFields.contains remove = false ∧
       boardKeys.contains remove = true ∧
       s.board remove ≠ none ∧
       s.board remove ≠ some s.current ∧
       isMill s source target = true) := by
  unfold removeCheck
  rw [if_pos hr]
  constructor
  · intro h
    split_ifs at h with h1 h2 h3 h4
    simp_all
  · rintro ⟨h1, h2, h3, h4, h5⟩
    rw [if_neg (by simp only [h1, h2]; simp), if_neg h3, if_neg h4,
      if_neg (by simp [h5])]

/-- Witness for the amended C1 at a concrete input: the capture of the
protected stone a4 passes the removal block. -/
theorem c1_removal_amended_witness :
    removeCheck millProtectState "h" "d3" "a4" = true :=
  (c1_removal_amended millProtectState "h" "d3" "a4" (by decide)).2
    ⟨by decide, by decide, by decide, by decide, by decide⟩

end LaskerMorris
namespace LaskerMorris

/-- The lines initialize_game writes, tagged by the color of the
receiving player process: after starting both processes the current
player is set to whichever player is blue, and the single line written
is the starting command blue, sent to that player.  No line is written
to the orange player.  p1Color is the randomly assigned color of
player1. -/
def initializeGameWrites (p1Color : Color) : List (Color × String) :=
  let currentColor := if p1Color = Color.blue then p1Color else p1Color.other
  [(currentColor, "blue")]

/-- The lines one run_game turn writes, tagged by receiving color: an
accepted move is relayed verbatim to the other player; a rejected move
ends the game and nothing is written. -/
def turnWrites (s : GameState) (move : String) : List (Color × String) :=
  if (makeMove s move).1 then [(s.current.other, move)] else []

/-- The lines addressed to one player color, in write order. -/
def writesTo (c : Color) (tr : List (Color × String)) : List String :=
  (tr.filter (fun e => e.1 == c)).map (fun e => e.2)

/-- Counterexample to C7 as stated: in a game whose first accepted move
is h d1 r0, the first line the referee writes to the orange player is
that move, not the literal string orange; initialize_game never sends
the orange player its color. -/
theorem c7_counterexample :
    writesTo Color.orange
        (initializeGameWrites Color.blue ++ turnWrites initState "h d1 r0")
      = ["h d1 r0"] ∧
    writesTo Color.orange (initializeGameWrites Color.blue) = [] ∧
    writesTo Color.orange (initializeGameWrites Color.orange) = [] ∧
    (makeMove initState "h d1 r0").1 = true :=
  ⟨by decide, by decide, by decide, by decide⟩

/-- Claim C7 amended: whichever color player1 drew, the only line
written during initialization is the literal string blue, addressed to
the blue player before any move line; the orange player receives no
color line at all, and the first line written to it is the first
accepted move of blue. -/
theorem c7_first_line_amended (p1Color : Color) (m : String)
    (hm : (makeMove initState m).1 = true) :
    writesTo Color.blue (initializeGameWrites p1Color) = ["blue"] ∧
    writesTo Color.orange (initializeGameWrites p1Color) = [] ∧
    writesTo Color.orange
        (initializeGameWrites p1Color ++ turnWrites initState m) = [m] := by
  have hinit : initializeGameWrites p1Color = [(Color.blue, "blue")] := by
    cases p1Color <;> rfl
  refine ⟨by rw [hinit]; rfl, by rw [hinit]; rfl, ?_⟩
  rw [hinit]
  unfold turnWrites
  rw [if_pos hm]
  rfl

/-- Witness for the amended C7 at the concrete first move h d1 r0. -/
theorem c7_first_line_amended_witness :
    writesTo Color.orange
        (initializeGameWrites Color.orange ++ turnWrites initState "h d1 r0")
      = ["h d1 r0"] :=
  (c7_first_line_amended Color.orange "h d1 r0" (by decide)).2.2

/-- AbstractPlayer.read with the busy wait loop given explicit fuel:
each loop iteration pops the oldest queued line when one is queued
(stripped), returns the empty string at once when the queue is empty
and the process is dead, and otherwise sleeps and polls again.  The
code has no timeout of its own, so with a live silent process no fuel
bound makes it return. -/
def readFuel (queue : List String) (alive : Bool) : Nat → Option String
  | 0 => none
  | n + 1 =>
    match queue with
    | l :: _ => some l.trim
    | [] => if alive then readFuel [] alive n else some ""

/-- One turn of run_game: the line read from the current player is fed
to make_move; a rejected line (the empty string of a dead channel
included) ends the game at once with the other player as winner; an
accepted move is executed, relayed, checked for a winner, and the turn
switches. -/
def runTurn (s : GameState) (p1 : Color) (move : String) :
    Option Color × GameState :=
  match makeMove s move with
  | (true, s') =>
    match determineWinner s' p1 with
    | some w => (some w, s')
    | none => (none, switchPlayer s')
  | (false, _) => (some s.current.other, s)

/-- Modelled from the spec: the per move time budget and its handling
are absent from the provided sources (the tests reference a
_get_move_with_timeout helper that is not in src).  Following the spec,
fetching a move yields either a line or a timeout, and on entering a
turn a timeout, like an empty or closed read, is an immediate loss for
the current color. -/
def turnWithBudget (s : GameState) (p1 : Color) (fetch : Option String) :
    Option Color × GameState :=
  match fetch with
  | none => (some s.current.other, s)
  | some mv => runTurn s p1 mv

/-- Claim C4: a timed out fetch (modelled from the spec) and the empty
read produced by a dead process with a drained queue both terminate the
game immediately with the opposing color as winner; a live silent
channel never produces a line, and the empty line is always rejected by
make_move. -/
theorem c4_timeout_and_dead_forfeit (s : GameState) (p1 : Color) :
    (turnWithBudget s p1 none).1 = some s.current.other ∧
    (∀ n : Nat, readFuel [] false (n + 1) = some "") ∧
    (∀ n : Nat, readFuel [] true n = none) ∧
    (makeMove s "").1 = false ∧
    (runTurn s p1 "").1 = some s.current.other ∧
    (turnWithBudget s p1 (some "")).1 = some s.current.other := by
  refine ⟨rfl, fun n => rfl, fun n => ?_, rfl, rfl, rfl⟩
  induction n with
  | zero => rfl
  | succ k ih => simpa [readFuel] using ih

end LaskerMorris
namespace LaskerMorris

/-- Terminal game results including the draw. -/
inductive Outcome where
  | wonBy (c : Color)
  | draw
deriving DecidableEq, Repr

/-- Modelled from the spec: the oscillation draw detector is absent
from the provided sources (the tests reference a _is_oscillating_moves
helper that is not in src).  Following the spec, the move history
oscillates when it has at least 8 entries and its most recent 8 entries
are 4 alternating move pairs repeating with period 2, that is the last
8 single entries repeat with period 4. -/
def isOscillatingMoves (history : List String) : Bool :=
  if history.length < 8 then false
  else
    let lastEight := history.drop (history.length - 8)
    lastEight.take 4 == lastEight.drop 4

/-- Modelled from the spec: determine_winner with the draw branch that
is absent from src: the piece count win runs first and takes precedence,
then the oscillation draw over the move history. -/
def determineWinnerFull (s : GameState) (p1 : Color)
    (history : List String) : Option Outcome :=
  match determineWinner s p1 with
  | some w => some (Outcome.wonBy w)
  | none =>
    if isOscillatingMoves history then some Outcome.draw else none

/-- Claim C3: on any move history whose most recent 8 entries are 4
alternating move pairs repeating with period 2 (the last 8 entries are
a b c d a b c d), the termination check reports a draw, provided no
piece count win fires first (the spec gives wins precedence over the
draw). -/
theorem c3_oscillation_draw (s : GameState) (p1 : Color)
    (pre : List String) (a b c d : String)
    (h1 : 3 ≤ countPlayerPieces s p1)
    (h2 : 3 ≤ countPlayerPieces s p1.other) :
    determineWinnerFull s p1 (pre ++ [a, b, c, d, a, b, c, d])
      = some Outcome.draw := by
  have hw : determineWinner s p1 = none := by
    unfold determineWinner
    rw [if_neg (by omega), if_neg (by omega)]
  have hlen : (pre ++ [a, b, c, d, a, b, c, d]).length = pre.length + 8 := by
    simp
  have hosc : isOscillatingMoves (pre ++ [a, b, c, d, a, b, c, d]) = true := by
    unfold isOscillatingMoves
    rw [if_neg (by rw [hlen]; omega)]
    have hdrop : (pre ++ [a, b, c, d, a, b, c, d]).drop
        ((pre ++ [a, b, c, d, a, b, c, d]).length - 8)
        = [a, b, c, d, a, b, c, d] := by
      rw [hlen]
      have : pre.length + 8 - 8 = pre.length := by omega
      rw [this, List.drop_left]
    rw [hdrop]
    simp
  unfold determineWinnerFull
  rw [hw, hosc]
  rfl

/-- Witness for C3 at a concrete oscillating history of 8 entries on
the initial state. -/
theorem c3_oscillation_draw_witness :
    determineWinnerFull initState Color.blue
      ["d1 d2 r0", "e1 e2 r0", "d2 d1 r0", "e2 e1 r0",
       "d1 d2 r0", "e1 e2 r0", "d2 d1 r0", "e2 e1 r0"]
      = some Outcome.draw :=
  c3_oscillation_draw initState Color.blue []
    "d1 d2 r0" "e1 e2 r0" "d2 d1 r0" "e2 e1 r0" (by decide) (by decide)

end LaskerMorris
namespace LaskerMorris

/-- Writing a board cell leaves both hands unchanged. -/
theorem hand_setBoard (s : GameState) (p : String) (v : Option Color)
    (c : Color) : hand (setBoard s p v) c = hand s c := by
  cases c <;> rfl

/-- Switching the turn leaves both hands unchanged. -/
theorem hand_switchPlayer (s : GameState) (c : Color) :
    hand (switchPlayer s) c = hand s c := by
  cases c <;> rfl

/-- Decrementing one hand subtracts one there and nothing elsewhere. -/
theorem hand_decHand (s : GameState) (c0 c : Color) :
    hand (decHand s c0) c = if c = c0 then hand s c - 1 else hand s c := by
  cases c0 <;> cases c <;> simp [decHand, hand]

/-- Hand effect of _execute_move: the mover hand drops by one exactly on
a placement from hand; board moves and removals touch no hand. -/
theorem hand_executeMove (s : GameState) (source target remove : String)
    (c : Color) :
    hand (executeMove s source target remove) c =
      if source = "h" ∧ c = s.current then hand s c - 1 else hand s c := by
  dsimp only [executeMove]
  by_cases hs : source = "h"
  · rw [if_pos hs]
    by_cases hr : remove ≠ "r0"
    · rw [if_pos hr, hand_setBoard, hand_setBoard, hand_decHand]
      by_cases hc : c = s.current <;> simp [hs, hc]
    · rw [if_neg hr, hand_setBoard, hand_decHand]
      by_cases hc : c = s.current <;> simp [hs, hc]
  · rw [if_neg hs]
    by_cases hr : remove ≠ "r0"
    · rw [if_pos hr, hand_setBoard, hand_setBoard, hand_setBoard]
      simp [hs]
    · rw [if_neg hr, hand_setBoard, hand_setBoard]
      simp [hs]

/-- The validator accepts a placement from hand only when the mover
still has a stone in hand. -/
theorem isValidMove_hand_pos (s : GameState) (target remove : String)
    (h : isValidMove s "h" target remove = true) :
    0 < hand s s.current := by
  unfold isValidMove at h
  rw [if_neg (by simp : ¬ ("h" ≠ "h"))] at h
  split_ifs at h with h1 h2 h3
  omega

/-- Inversion of an accepted make_move: the line tokenizes into three
tokens, the validator accepted them, and the result is the executed
state. -/
theorem makeMove_true_inv (s : GameState) (m : String) (s1 : GameState)
    (h : makeMove s m = (true, s1)) :
    ∃ a b c, tokenize m = [a, b, c] ∧ isValidMove s a b c = true ∧
      s1 = executeMove s a b c := by
  rcases ht : tokenize m with _ | ⟨a, _ | ⟨b, _ | ⟨c, _ | ⟨d, rest⟩⟩⟩⟩ <;>
    simp only [makeMove, ht] at h
  · exact absurd h (by simp)
  · exact absurd h (by simp)
  · exact absurd h (by simp)
  · by_cases hv : isValidMove s a b c = true
    · rw [if_pos hv] at h
      injection h with h1 h2
      exact ⟨a, b, c, rfl, hv, h2.symm⟩
    · rw [if_neg hv] at h
      exact absurd h (by simp)
  · exact absurd h (by simp)

/-- Hand effect of one accepted turn: no hand grows, and a hand that was
nonnegative stays nonnegative. -/
theorem step_hand_bounds (s s' : GameState) (m : String)
    (hs : step s m = some s') :
    (∀ c, hand s' c ≤ hand s c) ∧
    (∀ c, 0 ≤ hand s c → 0 ≤ hand s' c) := by
  unfold step at hs
  rcases hm : makeMove s m with ⟨ok, s1⟩
  rw [hm] at hs
  cases ok
  · simp at hs
  · simp only [Option.some.injEq] at hs
    obtain ⟨a, b, c, ht, hv, he⟩ := makeMove_true_inv s m s1 hm
    subst he
    have hhand : ∀ c0, hand s' c0 = hand (executeMove s a b c) c0 := by
      intro c0
      rw [← hs, hand_switchPlayer]
    constructor
    · intro c0
      rw [hhand c0, hand_executeMove]
      split_ifs <;> omega
    · intro c0 h0
      rw [hhand c0, hand_executeMove]
      split_ifs with hif
      · obtain ⟨ha, hc⟩ := hif
        subst ha
        have := isValidMove_hand_pos s b c hv
        subst hc
        omega
      · exact h0

/-- Along any sequence of accepted moves both hands stay nonnegative. -/
theorem reach_hand_nonneg (ms : List String) (s0 s : GameState)
    (hb : 0 ≤ hand s0 Color.blue) (ho : 0 ≤ hand s0 Color.orange)
    (h : reach s0 ms = some s) :
    0 ≤ hand s Color.blue ∧ 0 ≤ hand s Color.orange := by
  induction ms generalizing s0 with
  | nil =>
    unfold reach at h
    cases h
    exact ⟨hb, ho⟩
  | cons m ms ih =>
    unfold reach at h
    rcases hst : step s0 m with _ | s1 <;> rw [hst] at h
    · exact absurd h (by simp)
    · have hp := step_hand_bounds s0 s1 m hst
      exact ih s1 (hp.2 Color.blue hb) (hp.2 Color.orange ho) h

/-- Claim C9: in every state reached from the initial state by accepted
moves, both hands are nonnegative; every further accepted turn can only
keep or lower each hand; a hand changes only on a placement from hand,
which lowers the mover hand by exactly one and which the validator
accepts only when that hand is positive. -/
theorem c9_hand_invariant (ms : List String) (s : GameState)
    (h : reach initState ms = some s) :
    (0 ≤ hand s Color.blue ∧ 0 ≤ hand s Color.orange) ∧
    (∀ m s', step s m = some s' → ∀ c, hand s' c ≤ hand s c) ∧
    (∀ target remove, isValidMove s "h" target remove = true →
      0 < hand s s.current) ∧
    (∀ source target remove c, source ≠ "h" →
      hand (executeMove s source target remove) c = hand s c) ∧
    (∀ target remove, hand (executeMove s "h" target remove) s.current
      = hand s s.current - 1) := by
  refine ⟨reach_hand_nonneg ms initState s (by decide) (by decide) h,
    ?_, ?_, ?_, ?_⟩
  · intro m s' hst
    exact (step_hand_bounds s s' m hst).1
  · intro target remove hv
    exact isValidMove_hand_pos s target remove hv
  · intro source target remove c hsrc
    rw [hand_executeMove]
    simp [hsrc]
  · intro target remove
    rw [hand_executeMove]
    simp

/-- Witness for C9 at the concrete reachable state after the accepted
opening placement h d1 r0: both hands nonnegative. -/
theorem c9_hand_invariant_witness :
    0 ≤ hand (switchPlayer (executeMove initState "h" "d1" "r0"))
        Color.blue ∧
    0 ≤ hand (switchPlayer (executeMove initState "h" "d1" "r0"))
        Color.orange :=
  (c9_hand_invariant ["h d1 r0"]
    (switchPlayer (executeMove initState "h" "d1" "r0")) (by rfl)).1

end LaskerMorris
namespace LaskerMorris

/-- Contribution of one cell to the mill count of _is_mill: 1 for the
target, 1 for a cell that is not the vacated source and already holds
the mover color, 0 otherwise. -/
def millContrib (s : GameState) (source target : String) (p : String) :
    Nat :=
  if p = target then 1
  else if p ≠ source ∧ s.board p = some s.current then 1
  else 0

/-- The board after hypothetically applying the move, in the words of
the specification: the target holds the mover color, the cell vacated
by an on-board move is excluded, every other cell keeps its occupant. -/
def hypotheticalBoard (s : GameState) (source target : String)
    (p : String) : Option Color :=
  if p = target then some s.current
  else if source ≠ "h" ∧ p = source then none
  else s.board p

/-- Mill formation in the words of the specification: some of the fixed
mills containing the target has all of its cells holding the mover
color on the hypothetical board. -/
def specMillFormed (s : GameState) (source target : String) : Prop :=
  ∃ mill ∈ mills, target ∈ mill ∧
    ∀ p ∈ mill, hypotheticalBoard s source target p = some s.current

theorem millContrib_le_one (s : GameState) (source target p : String) :
    millContrib s source target p ≤ 1 := by
  unfold millContrib
  split_ifs <;> omega

/-- The counting loop of _is_mill is the sum of cell contributions. -/
theorem millStones_eq_sum (s : GameState) (source target : String)
    (mill : List String) :
    millStones s source target mill =
      (mill.map (millContrib s source target)).sum := by
  suffices h : ∀ (l : List String) (n : Nat),
      l.foldl
        (fun acc pos =>
          if pos = target then acc + 1
          else if pos ≠ source ∧ s.board pos = some s.current then acc + 1
          else acc)
        n = n + (l.map (millContrib s source target)).sum by
    simpa using h mill 0
  intro l
  induction l with
  | nil => intro n; simp
  | cons p l ih =>
    intro n
    simp only [List.foldl_cons, List.map_cons, List.sum_cons]
    rw [ih]
    unfold millContrib
    split_ifs <;> omega

theorem sum_map_le_length {α : Type} (l : List α) (f : α → Nat)
    (hf : ∀ p ∈ l, f p ≤ 1) : (l.map f).sum ≤ l.length := by
  induction l with
  | nil => simp
  | cons a l ih =>
    simp only [List.map_cons, List.sum_cons, List.length_cons]
    have ha := hf a (List.mem_cons_self a l)
    have hrec := ih (fun p hp => hf p (List.mem_cons_of_mem a hp))
    omega

theorem sum_map_eq_length_iff {α : Type} (l : List α) (f : α → Nat)
    (hf : ∀ p ∈ l, f p ≤ 1) :
    (l.map f).sum = l.length ↔ ∀ p ∈ l, f p = 1 := by
  induction l with
  | nil => simp
  | cons a l ih =>
    simp only [List.map_cons, List.sum_cons, List.length_cons]
    have ha := hf a (List.mem_cons_self a l)
    have hbound := sum_map_le_length l f
      (fun p hp => hf p (List.mem_cons_of_mem a hp))
    have hrec := ih (fun p hp => hf p (List.mem_cons_of_mem a hp))
    constructor
    · intro h
      have hfa : f a = 1 := by omega
      have hsum : (l.map f).sum = l.length := by omega
      intro p hp
      rcases List.mem_cons.mp hp with rfl | hp2
      · exact hfa
      · exact (hrec.mp hsum) p hp2
    · intro h
      have hfa : f a = 1 := h a (List.mem_cons_self a l)
      have hall := hrec.mpr (fun p hp => h p (List.mem_cons_of_mem a hp))
      omega

theorem mills_length_three : ∀ m ∈ mills, m.length = 3 := by decide

theorem mills_no_hand_marker : ∀ m ∈ mills, ∀ p ∈ m, p ≠ "h" := by decide

/-- For a cell that is not the hand marker, contributing to the count of
_is_mill is the same as holding the mover color on the hypothetical
board. -/
theorem millContrib_eq_one_iff (s : GameState) (source target p : String)
    (hp : p ≠ "h") :
    millContrib s source target p = 1 ↔
      hypotheticalBoard s source target p = some s.current := by
  unfold millContrib hypotheticalBoard
  by_cases h1 : p = target
  · simp [h1]
  · rw [if_neg h1, if_neg h1]
    by_cases h2 : source ≠ "h" ∧ p = source
    · rw [if_pos h2]
      simp [h2.2]
    · rw [if_neg h2]
      have hps : p ≠ source := by
        intro he
        exact h2 ⟨by rw [← he]; exact hp, he⟩
      by_cases h3 : s.board p = some s.current
      · simp [hps, h3]
      · simp [hps, h3]

/-- Claim C5: the mill check of _is_mill reports a mill iff, after
hypothetically placing the mover color on the target while excluding
the cell vacated by an on-board move, all 3 cells of at least one of
the 16 fixed mills containing the target hold the mover color. -/
theorem c5_mill_check_iff_spec :
    mills.length = 16 ∧
    ∀ (s : GameState) (source target : String),
      (isMill s source target = true ↔ specMillFormed s source target) := by
  refine ⟨by decide, fun s source target => ?_⟩
  unfold isMill specMillFormed
  rw [List.any_eq_true]
  constructor
  · rintro ⟨mill, hmem, hcond⟩
    rw [Bool.and_eq_true, beq_iff_eq] at hcond
    obtain ⟨hc, hcount⟩ := hcond
    have htmem : target ∈ mill := by simpa using hc
    have hlen : mill.length = 3 := mills_length_three mill hmem
    rw [millStones_eq_sum] at hcount
    have hsum : (mill.map (millContrib s source target)).sum = mill.length := by
      omega
    have hall := (sum_map_eq_length_iff mill (millContrib s source target)
      (fun p _ => millContrib_le_one s source target p)).mp hsum
    refine ⟨mill, hmem, htmem, fun p hp => ?_⟩
    exact (millContrib_eq_one_iff s source target p
      (mills_no_hand_marker mill hmem p hp)).mp (hall p hp)
  · rintro ⟨mill, hmem, htmem, hall⟩
    refine ⟨mill, hmem, ?_⟩
    rw [Bool.and_eq_true, beq_iff_eq]
    refine ⟨by simpa using htmem, ?_⟩
    have hlen : mill.length = 3 := mills_length_three mill hmem
    rw [millStones_eq_sum]
    have hall2 : ∀ p ∈ mill, millContrib s source target p = 1 :=
      fun p hp => (millContrib_eq_one_iff s source target p
        (mills_no_hand_marker mill hmem p hp)).mpr (hall p hp)
    have := (sum_map_eq_length_iff mill (millContrib s source target)
      (fun p _ => millContrib_le_one s source target p)).mpr hall2
    omega

end LaskerMorris
